import Mathlib

/-!
Verification development for the scanner-winning repository
(src/scanner_bot.py and src/portfolio_manager.py).

The embedding is a shallow translation of the two Python modules.
Machine floats are modelled by rationals; an IEEE non-finite value
(infinity or NaN, which in the source can only arise from a division
whose denominator is zero) is modelled by the value None of an
Option type.  Python round(x, n) is modelled by exact decimal
rounding half to even, the documented behaviour of Python round.
Fields of the yfinance info mapping that no claim touches
(formatted volume strings, PE, EPS, beta, 52-week range, target)
are passthrough display data in the source and are omitted here.
-/

/-- Decimal rounding half to even of a scaled rational, the model of
Python round applied to a finite value. -/
def rhe (y : ℚ) : ℤ :=
  let f := ⌊y⌋
  let r := y - f
  if r < 1/2 then f
  else if 1/2 < r then f + 1
  else if f % 2 = 0 then f else f + 1

/-- Model of Python round(x, n): round to n decimal places, ties to even. -/
def roundq (n : ℕ) (x : ℚ) : ℚ := (rhe (x * 10 ^ n) : ℚ) / 10 ^ n

/-! ## scanner_bot.py : metric computation (get_stock_data) -/

/-- One row of the yfinance price history.  The date index is abstracted
to the single comparison the source makes with it: whether the bar falls
on or after January 1 of the current year. -/
structure PriceBar where
  openPrice : ℚ
  closePrice : ℚ
  inCurrentYear : Bool
deriving DecidableEq

/-- The part of the yfinance info mapping that get_stock_data uses for the
current price.  A missing key is modelled by none (a key present with a
null value behaves like 0 under the final falsy test in the source and is
not distinguished by any claim). -/
structure Fundamentals where
  currentPrice : Option ℚ
  regularMarketPrice : Option ℚ
deriving DecidableEq

def closesOf (hist : List PriceBar) : List ℚ := hist.map (·.closePrice)

/-- info.get of currentPrice with info.get of regularMarketPrice
(default 0.0) as the fallback. -/
def pickInfoPrice (info : Fundamentals) : ℚ :=
  match info.currentPrice with
  | some v => v
  | none =>
    match info.regularMarketPrice with
    | some v => v
    | none => 0

/-- The current price used by get_stock_data: the info price unless it is
falsy, in which case the last historical close is used.  The source only
reaches this point with a nonempty history, so the getLastD default is
never consulted. -/
def resolveCurrentPrice (info : Fundamentals) (hist : List PriceBar) : ℚ :=
  let cp := pickInfoPrice info
  if cp = 0 then (closesOf hist).getLastD 0 else cp

/-- Weekly return: (current - close[-6]) / close[-6] when at least 6 bars
exist, else 0.  The source performs the float division unconditionally;
a zero denominator yields a non-finite float, modelled by none. -/
def weeklyReturn (closes : List ℚ) (current : ℚ) : Option ℚ :=
  if 6 ≤ closes.length then
    let p := closes.getD (closes.length - 6) 0
    if p = 0 then none else some ((current - p) / p)
  else some 0

/-- Monthly return: same formula with close[-22], guarded by 22 bars. -/
def monthlyReturn (closes : List ℚ) (current : ℚ) : Option ℚ :=
  if 22 ≤ closes.length then
    let p := closes.getD (closes.length - 22) 0
    if p = 0 then none else some ((current - p) / p)
  else some 0

/-- Year-to-date return: based on the open of the first bar on or after
January 1 of the current year, 0 when no bar falls in the current year. -/
def ytdReturn (hist : List PriceBar) (current : ℚ) : Option ℚ :=
  match hist.filter (·.inCurrentYear) with
  | [] => some 0
  | b :: _ =>
    let p := b.openPrice
    if p = 0 then none else some ((current - p) / p)

/-- 52-week return: based on close[0] when the history is nonempty. -/
def yearReturn (closes : List ℚ) (current : ℚ) : Option ℚ :=
  if 0 < closes.length then
    let p := closes.getD 0 0
    if p = 0 then none else some ((current - p) / p)
  else some 0

/-- Day-over-day close deltas, hist.Close.diff without its leading NaN. -/
def deltas (xs : List ℚ) : List ℚ := (xs.zip xs.tail).map (fun p => p.2 - p.1)

/-- delta.where(delta greater than 0, 0): the gain series. -/
def gainSeries (xs : List ℚ) : List ℚ :=
  (deltas xs).map (fun d => if 0 < d then d else 0)

/-- minus delta.where(delta less than 0, 0): the loss series. -/
def lossSeries (xs : List ℚ) : List ℚ :=
  (deltas xs).map (fun d => if d < 0 then -d else 0)

/-- The last value of a 14-period rolling mean, i.e. the mean of the last
14 elements.  The source evaluates it only when at least 14 deltas exist. -/
def last14mean (xs : List ℚ) : ℚ := ((xs.drop (xs.length - 14)).sum) / 14

/-- gain.iloc[-1] of the source. -/
def meanGain (closes : List ℚ) : ℚ := last14mean (gainSeries closes)

/-- loss.iloc[-1] of the source. -/
def meanLoss (closes : List ℚ) : ℚ := last14mean (lossSeries closes)

/-- RSI(14) from 14-period simple rolling means of gains and losses,
requiring at least 15 bars (else NaN, i.e. none).  Float semantics of the
source when the mean loss is 0: rs = g / 0 is +infinity when g is
positive, making rsi = 100 - 100/(1 + rs) = 100 with no NaN produced;
and rs = 0/0 is NaN when g = 0, which the explicit isna fallback maps to
100 if the last gain value is positive (impossible here) else 50.
A negative mean loss cannot occur since every loss term is nonnegative. -/
def rsi14 (closes : List ℚ) : Option ℚ :=
  if 15 ≤ closes.length then
    let g := meanGain closes
    let l := meanLoss closes
    if l = 0 then (if 0 < g then some 100 else some 50)
    else some (100 - 100 / (1 + g / l))
  else none

/-- The fields of the per-symbol result row that participate in a claim.
Percentage fields are stored already multiplied by 100 and rounded to two
decimals; none models N/A or a non-finite float. -/
structure MetricRow where
  symbol : String
  price : ℚ
  rsi : Option ℚ
  weeklyRetPct : Option ℚ
  monthlyRetPct : Option ℚ
  ytdRetPct : Option ℚ
  year52wRetPct : Option ℚ
deriving DecidableEq

/-- round(r * 100, 2) applied through a possibly non-finite value. -/
def pctField (r : Option ℚ) : Option ℚ := r.map (fun x => roundq 2 (x * 100))

/-- The result row of get_stock_data, computed at a given current price. -/
def metricRowFrom (symbol : String) (hist : List PriceBar) (current : ℚ) :
    MetricRow :=
  { symbol := symbol
    price := current
    rsi := (rsi14 (closesOf hist)).map (roundq 2)
    weeklyRetPct := pctField (weeklyReturn (closesOf hist) current)
    monthlyRetPct := pctField (monthlyReturn (closesOf hist) current)
    ytdRetPct := pctField (ytdReturn hist current)
    year52wRetPct := pctField (yearReturn (closesOf hist) current) }

/-- get_stock_data: none when the history is empty, otherwise the metric
row computed at the resolved current price. -/
def getStockData (symbol : String) (info : Fundamentals)
    (hist : List PriceBar) : Option MetricRow :=
  if hist.isEmpty then none
  else some (metricRowFrom symbol hist (resolveCurrentPrice info hist))

/-! ## scanner_bot.py : classification (the List column of main) -/

/-- The List column assignment in main: initialised to Other, then
sequentially overwritten by the Simmering Growth, Rockets and Turnarounds
filters, a later matching rule overwriting an earlier one. -/
def listLabel (y m : ℚ) : String :=
  let l0 := "Other"
  let l1 := if 10 ≤ y ∧ y ≤ 20 ∧ 5 < m then "Simmering Growth" else l0
  let l2 := if 50 < y ∧ 10 < m then "Rockets" else l1
  let l3 := if y < 0 ∧ 10 < m then "Turnarounds" else l2
  l3

/-! ## portfolio_manager.py : the per-day ledger -/

/-- CAPITAL_PER_TRADE of portfolio_manager.py. -/
def CAPITAL_PER_TRADE : ℚ := 1000

/-- The columns of a scan row that add_new_positions reads.  A price of
none models a NaN Price cell (the pd.isna test of the source). -/
structure ScanRow where
  symbol : String
  price : Option ℚ
  listName : String
deriving DecidableEq

/-- One row of a daily portfolio CSV. -/
structure LedgerEntry where
  date : String
  symbol : String
  listName : String
  entryPrice : ℚ
  quantity : ℚ
  initialValue : ℚ
  currentPrice : ℚ
  currentValue : ℚ
  returnPct : ℚ
deriving DecidableEq

/-- focus_lists of add_new_positions. -/
def focusLists : List String := ["Simmering Growth", "Rockets", "Turnarounds"]

/-- The entry dict built inside the loop of add_new_positions. -/
def mkEntry (today : String) (r : ScanRow) (price : ℚ) : LedgerEntry :=
  let quantity := CAPITAL_PER_TRADE / price
  let initial_value := quantity * price
  { date := today
    symbol := r.symbol
    listName := r.listName
    entryPrice := roundq 2 price
    quantity := roundq 4 quantity
    initialValue := roundq 2 initial_value
    currentPrice := roundq 2 price
    currentValue := roundq 2 initial_value
    returnPct := 0 }

/-- The duplicate test of add_new_positions: only performed when the
loaded portfolio is nonempty, and only against the loaded portfolio
(never against entries proposed earlier in the same call). -/
def hasSymbol (portfolio : List LedgerEntry) (s : String) : Bool :=
  !portfolio.isEmpty && portfolio.any (fun e => e.symbol == s)

/-- The loop of add_new_positions producing new_entries: keeps rows whose
List is a focus list, drops NaN or nonpositive prices, and drops rows
whose symbol is already in the loaded portfolio. -/
def proposedEntries (portfolio : List LedgerEntry) (today : String) :
    List ScanRow → List LedgerEntry
  | [] => []
  | r :: rs =>
    if focusLists.contains r.listName then
      match r.price with
      | none => proposedEntries portfolio today rs
      | some p =>
        if p ≤ 0 then proposedEntries portfolio today rs
        else if hasSymbol portfolio r.symbol then proposedEntries portfolio today rs
        else mkEntry today r p :: proposedEntries portfolio today rs
    else proposedEntries portfolio today rs

/-- add_new_positions on the state of the daily portfolio file (none when
the file does not exist).  Returns the new file state and the number of
positions added; the file is written only when at least one entry was
proposed, and an empty scan returns immediately. -/
def add_new_positions (today : String) (rows : List ScanRow)
    (file : Option (List LedgerEntry)) : Option (List LedgerEntry) × ℕ :=
  if rows.isEmpty then (file, 0)
  else
    let portfolio := file.getD []
    let new_entries := proposedEntries portfolio today rows
    if new_entries.isEmpty then (file, 0)
    else (some (portfolio ++ new_entries), new_entries.length)

/-- One iteration of the revaluation loop of update_portfolio_values.
The quote collaborator returns none when the fetch raised or produced no
usable price; a price of 0 is falsy under the `if price` test, so the
entry is also left untouched then.  On success the three current fields
are updated in place.  The roi division is exact here; the source's
float division can only misbehave when initialValue is 0, which no entry
written by add_new_positions has. -/
def revalueEntry (quote : String → Option ℚ) (e : LedgerEntry) : LedgerEntry :=
  match quote e.symbol with
  | none => e
  | some p =>
    if p = 0 then e
    else
      let current_val := e.quantity * p
      let roi := (current_val - e.initialValue) / e.initialValue * 100
      { e with
        currentPrice := roundq 2 p
        currentValue := roundq 2 current_val
        returnPct := roundq 2 roi }

def sumInitial (es : List LedgerEntry) : ℚ := (es.map (·.initialValue)).sum

def sumCurrent (es : List LedgerEntry) : ℚ := (es.map (·.currentValue)).sum

/-- The body of the per-file loop of update_portfolio_values, carrying
the updated file states and the two running grand totals. -/
def revalueStep (quote : String → Option ℚ)
    (acc : List (Option (List LedgerEntry)) × ℚ × ℚ)
    (file : Option (List LedgerEntry)) :
    List (Option (List LedgerEntry)) × ℚ × ℚ :=
  match file with
  | none => (acc.1 ++ [none], acc.2.1, acc.2.2)
  | some entries =>
    if entries.isEmpty then (acc.1 ++ [some entries], acc.2.1, acc.2.2)
    else
      let entries' := entries.map (revalueEntry quote)
      (acc.1 ++ [some entries'],
       acc.2.1 + sumInitial entries', acc.2.2 + sumCurrent entries')

/-- update_portfolio_values over the list of per-day files in sorted
order.  A file state of none models a file whose read raises: it is
reported and skipped, and the aggregate sums exclude it.  An empty file
is skipped by the `continue` of the source before the sums (which it
would contribute 0 to).  Returns the new file states, the grand totals
of invested and current value, and the total return, which is the usual
percentage formula when total invested is positive and 0 otherwise. -/
def update_portfolio_values (quote : String → Option ℚ)
    (files : List (Option (List LedgerEntry))) :
    List (Option (List LedgerEntry)) × ℚ × ℚ × ℚ :=
  let out := files.foldl (revalueStep quote) ([], 0, 0)
  let total_ret := if 0 < out.2.1 then (out.2.2 - out.2.1) / out.2.1 * 100 else 0
  (out.1, out.2.1, out.2.2, total_ret)

/-! ## CLI entry points and exit status -/

/-- The three ways main of scanner_bot.py can return. -/
inductive ScanOutcome where
  | noTickers
  | noData
  | completed
deriving DecidableEq

/-- The exit status of the run-scan entry point as a function of the
discovered tickers and the per-symbol fetch results.  Neither module
contains a sys.exit call and every return path of main is a plain
return, so the process status is 0 on every path, including the
empty-discovery path (which prints a message and returns) and the
ledger-integration path (whose exceptions are caught and printed). -/
def runScanExit (tickers : List String)
    (fetch : String → Option MetricRow) : ScanOutcome × ℕ :=
  if tickers.isEmpty then (ScanOutcome.noTickers, 0)
  else
    let results := tickers.filterMap fetch
    if results.isEmpty then (ScanOutcome.noData, 0)
    else (ScanOutcome.completed, 0)

/-- The exit status of the revalue-only entry point
(python portfolio_manager.py): update_portfolio_values runs and the
module ends, so the process status is 0. -/
def revalueOnlyExit (quote : String → Option ℚ)
    (files : List (Option (List LedgerEntry))) : ℕ :=
  let _ := update_portfolio_values quote files
  0

/-! ## Helper lemmas on decimal rounding -/

lemma rhe_nonneg {y : ℚ} (hy : 0 ≤ y) : 0 ≤ rhe y := by
  simp only [rhe]
  have hf : (0 : ℤ) ≤ ⌊y⌋ := Int.le_floor.mpr (by exact_mod_cast hy)
  split_ifs <;> omega

lemma rhe_le_of_le {y : ℚ} {z : ℤ} (h : y ≤ (z : ℚ)) : rhe y ≤ z := by
  simp only [rhe]
  have hf : ⌊y⌋ ≤ z := by
    have := Int.floor_le_floor h
    rwa [Int.floor_intCast] at this
  have hfy : ((⌊y⌋ : ℚ)) ≤ y := Int.floor_le y
  split_ifs with h1 h2 h3
  · exact hf
  · have hlt : ((⌊y⌋ : ℚ)) < (z : ℚ) := by linarith
    have : ⌊y⌋ < z := by exact_mod_cast hlt
    omega
  · exact hf
  · have hr : y - ⌊y⌋ = 1/2 := le_antisymm (not_lt.mp h2) (not_lt.mp h1)
    have hlt : ((⌊y⌋ : ℚ)) < (z : ℚ) := by linarith
    have : ⌊y⌋ < z := by exact_mod_cast hlt
    omega

lemma roundq_nonneg {n : ℕ} {x : ℚ} (hx : 0 ≤ x) : 0 ≤ roundq n x := by
  unfold roundq
  apply div_nonneg _ (by positivity)
  exact_mod_cast rhe_nonneg (by positivity)

lemma roundq_le_int {n : ℕ} {x : ℚ} {z : ℤ} (hx : x ≤ (z : ℚ)) :
    roundq n x ≤ (z : ℚ) := by
  unfold roundq
  rw [div_le_iff₀ (by positivity)]
  have h1 : x * 10 ^ n ≤ ((z * 10 ^ n : ℤ) : ℚ) := by
    push_cast
    exact mul_le_mul_of_nonneg_right hx (by positivity)
  have h2 := rhe_le_of_le h1
  calc ((rhe (x * 10 ^ n) : ℤ) : ℚ) ≤ ((z * 10 ^ n : ℤ) : ℚ) := by exact_mod_cast h2
    _ = (z : ℚ) * 10 ^ n := by push_cast; ring

/-! ## C3 : the classifier -/

/-- The sequential overwrite of the List column reduces to a nested
conditional checking the rules in reverse order. -/
lemma listLabel_eq (y m : ℚ) :
    listLabel y m =
      if y < 0 ∧ 10 < m then "Turnarounds"
      else if 50 < y ∧ 10 < m then "Rockets"
      else if 10 ≤ y ∧ y ≤ 20 ∧ 5 < m then "Simmering Growth"
      else "Other" := rfl

/-- C3: the bucket label is a pure function of the 52-week and monthly
return percentages, assigned by sequential overwrite with a later
matching rule overwriting an earlier one; the three threshold regions
are pairwise disjoint, so the label is Simmering Growth on the first
region, Rockets on the second, Turnarounds on the third and Other
elsewhere, with the stated inclusive and exclusive boundary edges. -/
theorem C3_classifier_cases (y m : ℚ) :
    ((10 ≤ y ∧ y ≤ 20 ∧ 5 < m) → listLabel y m = "Simmering Growth")
  ∧ ((50 < y ∧ 10 < m) → listLabel y m = "Rockets")
  ∧ ((y < 0 ∧ 10 < m) → listLabel y m = "Turnarounds")
  ∧ ((¬(10 ≤ y ∧ y ≤ 20 ∧ 5 < m) ∧ ¬(50 < y ∧ 10 < m) ∧ ¬(y < 0 ∧ 10 < m)) →
      listLabel y m = "Other") := by
  refine ⟨fun h => ?_, fun h => ?_, fun h => ?_, fun h => ?_⟩
  · obtain ⟨ha, hb, hc⟩ := h
    rw [listLabel_eq, if_neg (by rintro ⟨h1, h2⟩; linarith),
      if_neg (by rintro ⟨h1, h2⟩; linarith), if_pos ⟨ha, hb, hc⟩]
  · obtain ⟨ha, hb⟩ := h
    rw [listLabel_eq, if_neg (by rintro ⟨h1, h2⟩; linarith), if_pos ⟨ha, hb⟩]
  · rw [listLabel_eq, if_pos h]
  · obtain ⟨h1, h2, h3⟩ := h
    rw [listLabel_eq, if_neg h3, if_neg h2, if_neg h1]

/-- C3 witness: the end-to-end scenario row with a 52-week return of 15
and a monthly return of 7 is classified Simmering Growth. -/
theorem C3_witness : listLabel 15 7 = "Simmering Growth" :=
  (C3_classifier_cases 15 7).1 (by norm_num)

/-! ## C4 : the return-window guards -/

/-- A six-bar history whose close six bars back is negative. -/
def badHist : List ℚ := [-2, 1, 1, 1, 1, 1]

/-- C4 counterexample: with six bars and a denominator price of -2 (not
positive), the weekly return is the unguarded quotient (5 - (-2)) / (-2),
not 0, so the claimed denominator guard does not exist in the code. -/
theorem C4_counterexample :
    ¬ (0 < badHist.getD (badHist.length - 6) 0) ∧
      weeklyReturn badHist 5 ≠ some 0 ∧
      weeklyReturn badHist 5 = some (-7/2) := by
  refine ⟨by norm_num [badHist], ?_, ?_⟩ <;> norm_num [weeklyReturn, badHist]

/-- C4 amended: in every one of the four windows only the availability
guards exist (bar counts for weekly, monthly and 52-week, a nonempty
current-year slice for YTD), and each gives 0 when it fails.  When the
guard holds the quotient is taken unconditionally in all four windows:
a denominator price of exactly 0 produces a non-finite value (not 0)
and any other denominator, negative included, is used as is, giving
the plain quotient. -/
theorem C4_amended (closes : List ℚ) (hist : List PriceBar) (current : ℚ) :
    (closes.length < 6 → weeklyReturn closes current = some 0)
  ∧ (closes.length < 22 → monthlyReturn closes current = some 0)
  ∧ (6 ≤ closes.length →
      (closes.getD (closes.length - 6) 0 = 0 →
        weeklyReturn closes current = none)
      ∧ (closes.getD (closes.length - 6) 0 ≠ 0 →
        weeklyReturn closes current
          = some ((current - closes.getD (closes.length - 6) 0)
              / closes.getD (closes.length - 6) 0)))
  ∧ (22 ≤ closes.length →
      (closes.getD (closes.length - 22) 0 = 0 →
        monthlyReturn closes current = none)
      ∧ (closes.getD (closes.length - 22) 0 ≠ 0 →
        monthlyReturn closes current
          = some ((current - closes.getD (closes.length - 22) 0)
              / closes.getD (closes.length - 22) 0)))
  ∧ (closes = [] → yearReturn closes current = some 0)
  ∧ (0 < closes.length →
      (closes.getD 0 0 = 0 → yearReturn closes current = none)
      ∧ (closes.getD 0 0 ≠ 0 →
        yearReturn closes current
          = some ((current - closes.getD 0 0) / closes.getD 0 0)))
  ∧ (hist.filter (·.inCurrentYear) = [] → ytdReturn hist current = some 0)
  ∧ (∀ b rest, hist.filter (·.inCurrentYear) = b :: rest →
      (b.openPrice = 0 → ytdReturn hist current = none)
      ∧ (b.openPrice ≠ 0 →
        ytdReturn hist current
          = some ((current - b.openPrice) / b.openPrice))) := by
  refine ⟨fun h => ?_, fun h => ?_, fun h => ⟨fun hz => ?_, fun hz => ?_⟩,
    fun h => ⟨fun hz => ?_, fun hz => ?_⟩, fun h => ?_,
    fun h => ⟨fun hz => ?_, fun hz => ?_⟩, fun h => ?_,
    fun b rest h => ⟨fun hz => ?_, fun hz => ?_⟩⟩
  · unfold weeklyReturn
    rw [if_neg (Nat.not_le.mpr h)]
  · unfold monthlyReturn
    rw [if_neg (Nat.not_le.mpr h)]
  · simp only [weeklyReturn]
    rw [if_pos h, if_pos hz]
  · simp only [weeklyReturn]
    rw [if_pos h, if_neg hz]
  · simp only [monthlyReturn]
    rw [if_pos h, if_pos hz]
  · simp only [monthlyReturn]
    rw [if_pos h, if_neg hz]
  · unfold yearReturn
    rw [if_neg (by rw [h]; exact lt_irrefl 0)]
  · simp only [yearReturn]
    rw [if_pos h, if_pos hz]
  · simp only [yearReturn]
    rw [if_pos h, if_neg hz]
  · simp only [ytdReturn, h]
  · simp only [ytdReturn, h]
    rw [if_pos hz]
  · simp only [ytdReturn, h]
    rw [if_neg hz]

/-- A one-bar history whose bar does not fall in the current year. -/
def lastYearBar : PriceBar := ⟨1, 2, false⟩

/-- C4 witness: a three-bar history has weekly and monthly return 0 and
an unguarded 52-week quotient of 4; a history with no current-year bar
has YTD return 0. -/
theorem C4_witness :
    weeklyReturn [1, 2, 3] 5 = some 0
  ∧ monthlyReturn [1, 2, 3] 5 = some 0
  ∧ yearReturn [1, 2, 3] 5 = some 4
  ∧ ytdReturn [lastYearBar] 5 = some 0 := by
  have hc := C4_amended [1, 2, 3] [lastYearBar] 5
  refine ⟨hc.1 (by decide), hc.2.1 (by decide), ?_, ?_⟩
  · have h := (hc.2.2.2.2.2.1 (by decide)).2 (by norm_num)
    rw [h]
    norm_num
  · exact hc.2.2.2.2.2.2.1 (by decide)

/-! ## C5 : RSI(14) -/

lemma roundq_le_100 {n : ℕ} {x : ℚ} (hx : x ≤ 100) : roundq n x ≤ 100 := by
  have h := roundq_le_int (n := n) (z := 100) (by exact_mod_cast hx)
  exact_mod_cast h

lemma meanGain_nonneg (closes : List ℚ) : 0 ≤ meanGain closes := by
  unfold meanGain last14mean
  apply div_nonneg _ (by norm_num)
  apply List.sum_nonneg
  intro x hx
  have hx' : x ∈ gainSeries closes := (List.drop_sublist _ _).subset hx
  unfold gainSeries at hx'
  obtain ⟨d, hd, rfl⟩ := List.mem_map.mp hx'
  split_ifs with h
  · exact le_of_lt h
  · exact le_refl 0

lemma meanLoss_nonneg (closes : List ℚ) : 0 ≤ meanLoss closes := by
  unfold meanLoss last14mean
  apply div_nonneg _ (by norm_num)
  apply List.sum_nonneg
  intro x hx
  have hx' : x ∈ lossSeries closes := (List.drop_sublist _ _).subset hx
  unfold lossSeries at hx'
  obtain ⟨d, hd, rfl⟩ := List.mem_map.mp hx'
  split_ifs with h
  · linarith
  · exact le_refl 0

/-- C5: with fewer than 15 bars RSI(14) is unavailable; with at least 15
bars the RSI computed from the 14-period simple rolling means of
day-over-day gains and losses exists, lies in [0, 100] both before and
after the final two-decimal rounding, and when the rolling mean of
losses is 0 it equals 100 if the latest gain value is positive and 50
otherwise. -/
theorem C5_rsi (closes : List ℚ) :
    (closes.length < 15 → rsi14 closes = none)
  ∧ (15 ≤ closes.length →
      ∃ r, rsi14 closes = some r ∧ 0 ≤ r ∧ r ≤ 100
        ∧ 0 ≤ roundq 2 r ∧ roundq 2 r ≤ 100
        ∧ (meanLoss closes = 0 →
            r = if 0 < meanGain closes then 100 else 50)) := by
  constructor
  · intro h
    unfold rsi14
    rw [if_neg (Nat.not_le.mpr h)]
  · intro h
    have hrsi : rsi14 closes =
        if meanLoss closes = 0 then
          (if 0 < meanGain closes then some 100 else some 50)
        else some (100 - 100 / (1 + meanGain closes / meanLoss closes)) := by
      simp only [rsi14]
      rw [if_pos h]
    by_cases hl : meanLoss closes = 0
    · rw [hrsi, if_pos hl]
      by_cases hg : 0 < meanGain closes
      · rw [if_pos hg]
        exact ⟨100, rfl, by norm_num, by norm_num,
          roundq_nonneg (by norm_num), roundq_le_100 (by norm_num),
          fun _ => (if_pos hg).symm⟩
      · rw [if_neg hg]
        exact ⟨50, rfl, by norm_num, by norm_num,
          roundq_nonneg (by norm_num), roundq_le_100 (by norm_num),
          fun _ => (if_neg hg).symm⟩
    · rw [hrsi, if_neg hl]
      have hg0 := meanGain_nonneg closes
      have hl0 : 0 < meanLoss closes :=
        lt_of_le_of_ne (meanLoss_nonneg closes) (Ne.symm hl)
      have hq : 0 ≤ meanGain closes / meanLoss closes := div_nonneg hg0 hl0.le
      have h1 : (0 : ℚ) < 1 + meanGain closes / meanLoss closes := by linarith
      have hle : 100 / (1 + meanGain closes / meanLoss closes) ≤ 100 := by
        rw [div_le_iff₀ h1]
        nlinarith
      have hpos : 0 < 100 / (1 + meanGain closes / meanLoss closes) := by
        positivity
      exact ⟨_, rfl, by linarith, by linarith,
        roundq_nonneg (by linarith), roundq_le_100 (by linarith),
        fun hc => absurd hc hl⟩

/-- A monotonically rising 16-bar close series. -/
def demoRising : List ℚ := [1, 2, 3, 4, 5, 6, 7, 8, 9, 10, 11, 12, 13, 14, 15, 16]

/-- C5 witness: on the rising 16-bar series the rolling mean of losses is
0 and the latest gain is positive, so the RSI is exactly 100. -/
theorem C5_witness : rsi14 demoRising = some 100 := by
  obtain ⟨r, hr, _, _, _, _, hz⟩ := (C5_rsi demoRising).2 (by decide)
  have hml : meanLoss demoRising = 0 := by
    norm_num [meanLoss, last14mean, lossSeries, deltas, demoRising]
  have hmg : 0 < meanGain demoRising := by
    norm_num [meanGain, last14mean, gainSeries, deltas, demoRising]
  have hr100 : r = 100 := by
    rw [hz hml, if_pos hmg]
  rw [hr, hr100]

/-! ## C9 : CLI exit status -/

/-- C9 counterexample: when discovery yields no candidate symbols, main
prints a message and returns, so the process exits with status 0, not
non-zero as claimed. -/
theorem C9_counterexample :
    (runScanExit [] (fun _ => none)).1 = ScanOutcome.noTickers ∧
    (runScanExit [] (fun _ => none)).2 = 0 :=
  ⟨rfl, rfl⟩

/-- C9 amended: both entry points exit with status 0 on every path,
including per-symbol fetch failures and also the empty-discovery case
(which prints a message and returns normally); no path exits non-zero. -/
theorem C9_amended (tickers : List String) (fetch : String → Option MetricRow)
    (quote : String → Option ℚ) (files : List (Option (List LedgerEntry))) :
    (runScanExit tickers fetch).2 = 0 ∧ revalueOnlyExit quote files = 0 := by
  refine ⟨?_, rfl⟩
  simp only [runScanExit]
  split_ifs <;> rfl

/-! ## C10 : current-price fallback to the last close -/

/-- C10: when the fundamentals mapping offers no usable current price
(currentPrice and regularMarketPrice both missing or zero) and the
history is nonempty, get_stock_data uses the last historical close as the
current price, and every return and valuation metric of the resulting
row is computed at that price. -/
theorem C10_price_fallback (symbol : String) (info : Fundamentals)
    (hist : List PriceBar) (hne : hist ≠ [])
    (hcp : info.currentPrice = none ∨ info.currentPrice = some 0)
    (hrmp : info.regularMarketPrice = none ∨ info.regularMarketPrice = some 0) :
    resolveCurrentPrice info hist = (closesOf hist).getLastD 0
  ∧ getStockData symbol info hist
      = some (metricRowFrom symbol hist ((closesOf hist).getLastD 0)) := by
  have hpick : pickInfoPrice info = 0 := by
    rcases hcp with h | h <;> rcases hrmp with h2 | h2 <;>
      simp [pickInfoPrice, h, h2]
  have hres : resolveCurrentPrice info hist = (closesOf hist).getLastD 0 := by
    simp [resolveCurrentPrice, hpick]
  refine ⟨hres, ?_⟩
  have hfalse : hist.isEmpty = false := by
    cases hist with
    | nil => exact absurd rfl hne
    | cons a l => rfl
  rw [getStockData, hfalse, hres]
  rfl

def demoInfo : Fundamentals := ⟨none, some 0⟩

def demoBars : List PriceBar := [⟨1, 5, false⟩, ⟨2, 7, true⟩]

/-- C10 witness: with both info prices unusable, a two-bar history with
closes 5 and 7 resolves the current price to 7. -/
theorem C10_witness : resolveCurrentPrice demoInfo demoBars = 7 := by
  have h := C10_price_fallback "ZZZ" demoInfo demoBars
    (by decide) (Or.inl rfl) (Or.inr rfl)
  rw [h.1]
  rfl

/-! ## Helper lemmas on the ledger operations -/

lemma hasSymbol_iff (L : List LedgerEntry) (s : String) :
    hasSymbol L s = true ↔ ∃ e ∈ L, e.symbol = s := by
  unfold hasSymbol
  rw [Bool.and_eq_true, List.any_eq_true]
  constructor
  · rintro ⟨-, e, he, hs⟩
    exact ⟨e, he, by simpa using hs⟩
  · rintro ⟨e, he, hs⟩
    refine ⟨?_, e, he, by simpa using hs⟩
    cases L with
    | nil => exact absurd he (List.not_mem_nil e)
    | cons a l => rfl

lemma hasSymbol_false_iff (L : List LedgerEntry) (s : String) :
    hasSymbol L s = false ↔ ∀ e ∈ L, e.symbol ≠ s := by
  constructor
  · intro h e he hs
    have ht : hasSymbol L s = true := (hasSymbol_iff L s).mpr ⟨e, he, hs⟩
    rw [h] at ht
    exact Bool.false_ne_true ht
  · intro h
    cases hb : hasSymbol L s with
    | false => rfl
    | true =>
      obtain ⟨e, he, hs⟩ := (hasSymbol_iff L s).mp hb
      exact absurd hs (h e he)

lemma mkEntry_symbol (t : String) (r : ScanRow) (p : ℚ) :
    (mkEntry t r p).symbol = r.symbol := rfl

/-- Every entry proposed by one call has the symbol of one of the rows
and a symbol that is not yet in the loaded portfolio. -/
lemma mem_proposedEntries {P : List LedgerEntry} {t : String}
    {rows : List ScanRow} {e : LedgerEntry}
    (h : e ∈ proposedEntries P t rows) :
    e.symbol ∈ rows.map ScanRow.symbol ∧ hasSymbol P e.symbol = false := by
  induction rows with
  | nil => simp [proposedEntries] at h
  | cons r rs ih =>
    rw [proposedEntries] at h
    split at h
    · split at h
      · obtain ⟨h1, h2⟩ := ih h
        exact ⟨by simp [h1], h2⟩
      · split at h
        · obtain ⟨h1, h2⟩ := ih h
          exact ⟨by simp [h1], h2⟩
        · split at h
          · obtain ⟨h1, h2⟩ := ih h
            exact ⟨by simp [h1], h2⟩
          · next hdup =>
            rcases List.mem_cons.mp h with he | he
            · subst he
              refine ⟨by simp [mkEntry_symbol], ?_⟩
              rw [mkEntry_symbol]
              cases hb : hasSymbol P r.symbol with
              | false => rfl
              | true => exact absurd hb hdup
            · obtain ⟨h1, h2⟩ := ih he
              exact ⟨by simp [h1], h2⟩
    · obtain ⟨h1, h2⟩ := ih h
      exact ⟨by simp [h1], h2⟩

/-- Proposing one more row at the front can only add entries, never drop
one. -/
lemma proposedEntries_subset_cons (P : List LedgerEntry) (t : String)
    (r0 : ScanRow) (rs : List ScanRow) :
    proposedEntries P t rs ⊆ proposedEntries P t (r0 :: rs) := by
  intro x hx
  rw [proposedEntries]
  split
  · split
    · exact hx
    · split
      · exact hx
      · split
        · exact hx
        · exact List.mem_cons_of_mem _ hx
  · exact hx

/-- When the symbol of every retained row is already in the portfolio, the
call proposes nothing. -/
lemma proposedEntries_eq_nil {P : List LedgerEntry} {t : String}
    {rows : List ScanRow}
    (h : ∀ r ∈ rows, ∀ p : ℚ, focusLists.contains r.listName = true →
      r.price = some p → ¬ p ≤ 0 → hasSymbol P r.symbol = true) :
    proposedEntries P t rows = [] := by
  induction rows with
  | nil => rfl
  | cons r rs ih =>
    have h' : ∀ r' ∈ rs, ∀ p : ℚ, focusLists.contains r'.listName = true →
        r'.price = some p → ¬ p ≤ 0 → hasSymbol P r'.symbol = true :=
      fun r' hr' => h r' (List.mem_cons_of_mem r hr')
    rw [proposedEntries]
    split
    · next hf =>
      split
      · exact ih h'
      · next p hp =>
        split
        · exact ih h'
        · next hple =>
          rw [if_pos (h r (List.mem_cons_self r rs) p hf hp hple)]
          exact ih h'
    · exact ih h'

/-- The cons equation of proposedEntries in the case where the head row
is retained and proposed. -/
lemma proposedEntries_cons_add {P : List LedgerEntry} {t : String}
    {r : ScanRow} {rs : List ScanRow} {p : ℚ}
    (hf : focusLists.contains r.listName = true) (hp : r.price = some p)
    (hple : ¬ p ≤ 0) (hdup : hasSymbol P r.symbol = false) :
    proposedEntries P t (r :: rs) = mkEntry t r p :: proposedEntries P t rs := by
  simp only [proposedEntries, hp]
  rw [if_pos hf, if_neg hple,
    if_neg (show ¬ hasSymbol P r.symbol = true by simp [hdup])]

/-- After one call, the symbol of every retained row is present in the file:
either it was already in the loaded portfolio or its entry was appended. -/
lemma hasSymbol_append_proposed {P : List LedgerEntry} {t : String}
    {rows : List ScanRow} {r : ScanRow} {p : ℚ}
    (hmem : r ∈ rows) (hf : focusLists.contains r.listName = true)
    (hp : r.price = some p) (hple : ¬ p ≤ 0) :
    hasSymbol (P ++ proposedEntries P t rows) r.symbol = true := by
  induction rows with
  | nil => exact absurd hmem (List.not_mem_nil r)
  | cons r0 rs ih =>
    rcases List.mem_cons.mp hmem with heq | hmem'
    · subst heq
      by_cases hdup : hasSymbol P r.symbol = true
      · obtain ⟨e, he, hs⟩ := (hasSymbol_iff P r.symbol).mp hdup
        exact (hasSymbol_iff _ _).mpr ⟨e, List.mem_append_left _ he, hs⟩
      · have hdup' : hasSymbol P r.symbol = false := by
          cases hb : hasSymbol P r.symbol with
          | false => rfl
          | true => exact absurd hb hdup
        rw [proposedEntries_cons_add hf hp hple hdup']
        exact (hasSymbol_iff _ _).mpr
          ⟨mkEntry t r p, List.mem_append_right _ (List.mem_cons_self _ _),
            mkEntry_symbol t r p⟩
    · obtain ⟨e, he, hs⟩ := (hasSymbol_iff _ _).mp (ih hmem')
      rcases List.mem_append.mp he with hP | hprop
      · exact (hasSymbol_iff _ _).mpr ⟨e, List.mem_append_left _ hP, hs⟩
      · exact (hasSymbol_iff _ _).mpr
          ⟨e, List.mem_append_right _
            (proposedEntries_subset_cons P t r0 rs hprop), hs⟩

/-- Running the same rows against the file produced by a first call
proposes nothing. -/
lemma proposedEntries_after (P : List LedgerEntry) (t t' : String)
    (rows : List ScanRow) :
    proposedEntries (P ++ proposedEntries P t rows) t' rows = [] := by
  apply proposedEntries_eq_nil
  intro r hr p hf hp hple
  exact hasSymbol_append_proposed hr hf hp hple

/-! ## C2 : idempotence of add_new_positions -/

/-- C2: add_new_positions is idempotent.  For any scan rows and any
prior state of the daily file, a second call on the same day with the
same rows leaves the file state produced by the first call unchanged and
reports zero additions. -/
theorem C2_idempotent (today : String) (rows : List ScanRow)
    (file : Option (List LedgerEntry)) :
    add_new_positions today rows (add_new_positions today rows file).1
      = ((add_new_positions today rows file).1, 0) := by
  by_cases hrows : rows.isEmpty
  · simp [add_new_positions, hrows]
  · by_cases hnil : (proposedEntries (file.getD []) today rows).isEmpty
    · have h1 : add_new_positions today rows file = (file, 0) := by
        simp only [add_new_positions, if_neg hrows]
        rw [if_pos hnil]
      rw [h1]
      exact h1
    · have h1 : add_new_positions today rows file
          = (some (file.getD [] ++ proposedEntries (file.getD []) today rows),
             (proposedEntries (file.getD []) today rows).length) := by
        simp only [add_new_positions, if_neg hrows]
        rw [if_neg hnil]
      rw [h1]
      have hafter : proposedEntries
          (file.getD [] ++ proposedEntries (file.getD []) today rows)
          today rows = [] :=
        proposedEntries_after (file.getD []) today today rows
      simp only [add_new_positions, if_neg hrows, Option.getD_some]
      rw [hafter]
      rfl

/-! ## C1 : per-symbol uniqueness in the ledger file -/

/-- One call proposes entries with pairwise distinct symbols provided
its input rows have pairwise distinct symbols. -/
lemma nodup_proposedEntries {P : List LedgerEntry} {t : String}
    {rows : List ScanRow} (h : (rows.map ScanRow.symbol).Nodup) :
    ((proposedEntries P t rows).map LedgerEntry.symbol).Nodup := by
  induction rows with
  | nil => simp [proposedEntries]
  | cons r rs ih =>
    rw [List.map_cons, List.nodup_cons] at h
    obtain ⟨hnotin, hrs⟩ := h
    rw [proposedEntries]
    split
    · split
      · exact ih hrs
      · split
        · exact ih hrs
        · split
          · exact ih hrs
          · rw [List.map_cons, List.nodup_cons]
            refine ⟨?_, ih hrs⟩
            rw [mkEntry_symbol]
            intro hmem
            obtain ⟨e, he, hs⟩ := List.mem_map.mp hmem
            have h1 := (mem_proposedEntries he).1
            rw [hs] at h1
            exact hnotin h1
    · exact ih hrs

/-- The file state has at most one entry per symbol. -/
def fileSymbolsNodup (file : Option (List LedgerEntry)) : Prop :=
  ((file.getD []).map LedgerEntry.symbol).Nodup

/-- A scan row duplicated within a single call. -/
def dupRow : ScanRow := ⟨"AAA", some 10, "Rockets"⟩

/-- C1 counterexample: one add_new_positions call whose input proposes
the same symbol twice writes two entries for that symbol into the daily
file, because the duplicate test only consults the portfolio loaded at
the start of the call, never the rows proposed earlier in the same
call.  The claim that such a row is silently skipped is false. -/
theorem C1_counterexample :
    (((add_new_positions "2026-01-02" [dupRow, dupRow] none).1.getD []).countP
      (fun e => e.symbol == "AAA")) = 2 := by decide

/-- C1 amended: a proposed entry whose symbol already appears in the
file as loaded at the start of the call is silently skipped, never
merged or overwritten, and a call only ever appends to the existing
entries; rows proposed earlier in the same call are not checked, so
per-symbol uniqueness of the file is preserved provided the input rows of each call carry pairwise distinct symbols (which the scan pipeline
guarantees by deduplicating tickers). -/
theorem C1_amended_invariant (today : String) (rows : List ScanRow)
    (file : Option (List LedgerEntry))
    (hrows : (rows.map ScanRow.symbol).Nodup)
    (hfile : fileSymbolsNodup file) :
    fileSymbolsNodup (add_new_positions today rows file).1
  ∧ ∃ new, ((add_new_positions today rows file).1.getD []
        = file.getD [] ++ new)
      ∧ ∀ e ∈ new, e.symbol ∉ (file.getD []).map LedgerEntry.symbol := by
  by_cases hrows0 : rows.isEmpty
  · simp only [add_new_positions, if_pos hrows0]
    exact ⟨hfile, [], by simp, by simp⟩
  · simp only [add_new_positions, if_neg hrows0]
    by_cases hnil : (proposedEntries (file.getD []) today rows).isEmpty
    · rw [if_pos hnil]
      exact ⟨hfile, [], by simp, by simp⟩
    · rw [if_neg hnil]
      constructor
      · unfold fileSymbolsNodup
        rw [Option.getD_some, List.map_append, List.nodup_append]
        refine ⟨hfile, nodup_proposedEntries hrows, ?_⟩
        intro s hsP hsnew
        obtain ⟨e, he, hse⟩ := List.mem_map.mp hsnew
        have h2 := (mem_proposedEntries he).2
        rw [hasSymbol_false_iff] at h2
        obtain ⟨e', he', hse'⟩ := List.mem_map.mp hsP
        exact h2 e' he' (hse'.trans hse.symm)
      · refine ⟨proposedEntries (file.getD []) today rows,
          by rw [Option.getD_some], fun e he hmem => ?_⟩
        have h2 := (mem_proposedEntries he).2
        rw [hasSymbol_false_iff] at h2
        obtain ⟨e', he', hse'⟩ := List.mem_map.mp hmem
        exact h2 e' he' hse'

/-- A well-formed single scan row. -/
def soloRow : ScanRow := ⟨"BBB", some 10, "Rockets"⟩

/-- C1 witness: a call with one distinct-symbol row on a fresh day
preserves per-symbol uniqueness of the file. -/
theorem C1_witness :
    fileSymbolsNodup (add_new_positions "2026-01-02" [soloRow] none).1 :=
  (C1_amended_invariant "2026-01-02" [soloRow] none (by decide)
    (by unfold fileSymbolsNodup; decide)).1

/-! ## C6 : the frozen entry fields -/

lemma rhe_eq_floor {y : ℚ} (h : y - ⌊y⌋ < 1/2) : rhe y = ⌊y⌋ := by
  simp only [rhe]
  rw [if_pos h]

lemma rhe_intCast (z : ℤ) : rhe (z : ℚ) = z := by
  simp only [rhe]
  rw [Int.floor_intCast]
  norm_num

/-- Revaluation rewrites only the three current fields of an entry: the
date, symbol, list, entry price, quantity and initial value are frozen. -/
lemma revalueEntry_preserves (quote : String → Option ℚ) (e : LedgerEntry) :
    (revalueEntry quote e).date = e.date
  ∧ (revalueEntry quote e).symbol = e.symbol
  ∧ (revalueEntry quote e).listName = e.listName
  ∧ (revalueEntry quote e).entryPrice = e.entryPrice
  ∧ (revalueEntry quote e).quantity = e.quantity
  ∧ (revalueEntry quote e).initialValue = e.initialValue := by
  unfold revalueEntry
  cases quote e.symbol with
  | none => exact ⟨rfl, rfl, rfl, rfl, rfl, rfl⟩
  | some p =>
    dsimp only
    by_cases hp0 : p = 0
    · rw [if_pos hp0]
      exact ⟨rfl, rfl, rfl, rfl, rfl, rfl⟩
    · rw [if_neg hp0]
      exact ⟨rfl, rfl, rfl, rfl, rfl, rfl⟩

/-- A failed or falsy quote leaves the entry exactly as it was. -/
lemma revalueEntry_of_fail (quote : String → Option ℚ) (e : LedgerEntry)
    (h : quote e.symbol = none ∨ quote e.symbol = some 0) :
    revalueEntry quote e = e := by
  rcases h with h | h <;> simp [revalueEntry, h]

/-- A scan row whose price 3 does not divide the trade capital evenly. -/
def rowP3 : ScanRow := ⟨"PPP", some 3, "Rockets"⟩

/-- C6 counterexample: at entry price 3 the stored fields are rounded
(quantity to 4 decimals, money to 2), so the stored quantity 333.3333 is
not capital divided by the stored entry price (1000/3), and the stored
initial value 1000 is not the stored quantity times the stored entry
price (999.9999).  The exact equations of the claim fail. -/
theorem C6_counterexample :
    (mkEntry "2026-01-02" rowP3 3).quantity
        ≠ CAPITAL_PER_TRADE / (mkEntry "2026-01-02" rowP3 3).entryPrice
  ∧ (mkEntry "2026-01-02" rowP3 3).initialValue
        ≠ (mkEntry "2026-01-02" rowP3 3).quantity
            * (mkEntry "2026-01-02" rowP3 3).entryPrice := by
  have hq : (mkEntry "2026-01-02" rowP3 3).quantity = 3333333/10000 := by
    show roundq 4 (CAPITAL_PER_TRADE / 3) = 3333333/10000
    have h1 : ⌊(CAPITAL_PER_TRADE/3) * 10^4⌋ = 3333333 := by
      unfold CAPITAL_PER_TRADE
      rw [Int.floor_eq_iff]
      constructor <;> norm_num
    unfold roundq
    rw [rhe_eq_floor (by rw [h1]; unfold CAPITAL_PER_TRADE; norm_num), h1]
    norm_num
  have hep : (mkEntry "2026-01-02" rowP3 3).entryPrice = 3 := by
    show roundq 2 (3 : ℚ) = 3
    unfold roundq
    rw [show ((3:ℚ) * 10^2) = ((300 : ℤ) : ℚ) by norm_num, rhe_intCast]
    norm_num
  have hiv : (mkEntry "2026-01-02" rowP3 3).initialValue = 1000 := by
    show roundq 2 (CAPITAL_PER_TRADE / 3 * 3) = 1000
    rw [div_mul_cancel₀ _ (by norm_num : (3:ℚ) ≠ 0)]
    unfold CAPITAL_PER_TRADE roundq
    rw [show ((1000:ℚ) * 10^2) = ((100000 : ℤ) : ℚ) by norm_num, rhe_intCast]
    norm_num
  rw [hq, hep, hiv]
  unfold CAPITAL_PER_TRADE
  constructor <;> norm_num

/-- C6 amended: for an entry created at scan price p, the stored entry
and current price are p rounded to 2 decimals, the stored quantity is
capitalPerTrade / p rounded to 4 decimals, the stored initial and
current values are the 2-decimal rounding of (capitalPerTrade / p) * p,
which is exactly capitalPerTrade, the return is 0, and revaluation never
changes the entry price, quantity or initial value. -/
theorem C6_amended (today : String) (r : ScanRow) (p : ℚ) (hp : 0 < p) :
    (mkEntry today r p).entryPrice = roundq 2 p
  ∧ (mkEntry today r p).quantity = roundq 4 (CAPITAL_PER_TRADE / p)
  ∧ (mkEntry today r p).initialValue = CAPITAL_PER_TRADE
  ∧ (mkEntry today r p).currentValue = CAPITAL_PER_TRADE
  ∧ (mkEntry today r p).currentPrice = roundq 2 p
  ∧ (mkEntry today r p).returnPct = 0
  ∧ ∀ quote : String → Option ℚ,
      (revalueEntry quote (mkEntry today r p)).entryPrice
          = (mkEntry today r p).entryPrice
      ∧ (revalueEntry quote (mkEntry today r p)).quantity
          = (mkEntry today r p).quantity
      ∧ (revalueEntry quote (mkEntry today r p)).initialValue
          = (mkEntry today r p).initialValue := by
  have hinit : (mkEntry today r p).initialValue = CAPITAL_PER_TRADE := by
    show roundq 2 (CAPITAL_PER_TRADE / p * p) = CAPITAL_PER_TRADE
    rw [div_mul_cancel₀ _ (ne_of_gt hp)]
    unfold CAPITAL_PER_TRADE roundq
    rw [show ((1000:ℚ) * 10^2) = ((100000 : ℤ) : ℚ) by norm_num, rhe_intCast]
    norm_num
  refine ⟨rfl, rfl, hinit, hinit, rfl, rfl, fun quote => ?_⟩
  obtain ⟨-, -, -, h4, h5, h6⟩ := revalueEntry_preserves quote (mkEntry today r p)
  exact ⟨h4, h5, h6⟩

/-- The end-to-end scenario row: price 100, Simmering Growth. -/
def abcRow : ScanRow := ⟨"ABC", some 100, "Simmering Growth"⟩

/-- C6 witness: the scenario entry at price 100 has initial value equal
to the trade capital and zero return at creation. -/
theorem C6_witness :
    (mkEntry "2026-01-02" abcRow 100).initialValue = CAPITAL_PER_TRADE
  ∧ (mkEntry "2026-01-02" abcRow 100).returnPct = 0 :=
  ⟨(C6_amended "2026-01-02" abcRow 100 (by norm_num)).2.2.1,
   (C6_amended "2026-01-02" abcRow 100 (by norm_num)).2.2.2.2.2.1⟩

/-! ## C7 and C8 : revaluation -/

/-- The updated state of one file: unreadable files stay unreadable,
readable files have each entry revalued in place. -/
def revaluedFile (quote : String → Option ℚ) :
    Option (List LedgerEntry) → Option (List LedgerEntry) :=
  Option.map (fun es => es.map (revalueEntry quote))

/-- Grand total of Initial Value over the readable files. -/
def totalInitial (files : List (Option (List LedgerEntry))) : ℚ :=
  ((files.filterMap id).map sumInitial).sum

/-- Grand total of Current Value over the readable files, after the
entries are revalued. -/
def totalCurrentAfter (quote : String → Option ℚ)
    (files : List (Option (List LedgerEntry))) : ℚ :=
  ((files.filterMap id).map
    (fun es => sumCurrent (es.map (revalueEntry quote)))).sum

lemma sumInitial_map_revalue (quote : String → Option ℚ)
    (es : List LedgerEntry) :
    sumInitial (es.map (revalueEntry quote)) = sumInitial es := by
  induction es with
  | nil => rfl
  | cons e es ih =>
    unfold sumInitial at *
    simp only [List.map_cons, List.sum_cons]
    rw [(revalueEntry_preserves quote e).2.2.2.2.2, ih]

lemma revaluedFile_none (quote : String → Option ℚ) :
    revaluedFile quote none = none := rfl

lemma revaluedFile_some (quote : String → Option ℚ) (es : List LedgerEntry) :
    revaluedFile quote (some es) = some (es.map (revalueEntry quote)) := rfl

lemma totalInitial_cons_none (fs : List (Option (List LedgerEntry))) :
    totalInitial (none :: fs) = totalInitial fs := by
  simp [totalInitial]

lemma totalInitial_cons_some (es : List LedgerEntry)
    (fs : List (Option (List LedgerEntry))) :
    totalInitial (some es :: fs) = sumInitial es + totalInitial fs := by
  simp [totalInitial]

lemma totalCurrentAfter_cons_none (quote : String → Option ℚ)
    (fs : List (Option (List LedgerEntry))) :
    totalCurrentAfter quote (none :: fs) = totalCurrentAfter quote fs := by
  simp [totalCurrentAfter]

lemma totalCurrentAfter_cons_some (quote : String → Option ℚ)
    (es : List LedgerEntry) (fs : List (Option (List LedgerEntry))) :
    totalCurrentAfter quote (some es :: fs)
      = sumCurrent (es.map (revalueEntry quote))
          + totalCurrentAfter quote fs := by
  simp [totalCurrentAfter]

/-- Characterisation of the revaluation fold: it maps every file through
revaluedFile in order and accumulates the two grand totals over the
readable files. -/
lemma foldl_revalueStep (quote : String → Option ℚ) :
    ∀ (files : List (Option (List LedgerEntry)))
      (acc : List (Option (List LedgerEntry)) × ℚ × ℚ),
    files.foldl (revalueStep quote) acc
      = (acc.1 ++ files.map (revaluedFile quote),
         acc.2.1 + totalInitial files,
         acc.2.2 + totalCurrentAfter quote files) := by
  intro files
  induction files with
  | nil =>
    intro acc
    simp [totalInitial, totalCurrentAfter]
  | cons f fs ih =>
    intro acc
    rw [List.foldl_cons, ih]
    cases f with
    | none =>
      simp only [revalueStep, List.map_cons, revaluedFile_none,
        totalInitial_cons_none, totalCurrentAfter_cons_none,
        List.append_assoc, List.singleton_append]
    | some es =>
      by_cases hes : es.isEmpty
      · obtain rfl : es = [] := List.isEmpty_iff.mp hes
        simp only [revalueStep, List.isEmpty_nil, if_true, List.map_cons,
          revaluedFile_some, List.map_nil, totalInitial_cons_some,
          totalCurrentAfter_cons_some, sumInitial, sumCurrent,
          List.sum_nil, List.append_assoc, List.singleton_append,
          Prod.mk.injEq]
        refine ⟨trivial, by ring, by ring⟩
      · simp only [revalueStep]
        rw [if_neg hes]
        simp only [List.map_cons, revaluedFile_some, totalInitial_cons_some,
          totalCurrentAfter_cons_some, sumInitial_map_revalue,
          List.append_assoc, List.singleton_append, Prod.mk.injEq]
        refine ⟨trivial, by ring, by ring⟩

lemma update_files_eq (quote : String → Option ℚ)
    (files : List (Option (List LedgerEntry))) :
    (update_portfolio_values quote files).1 = files.map (revaluedFile quote)
  ∧ (update_portfolio_values quote files).2.1 = totalInitial files
  ∧ (update_portfolio_values quote files).2.2.1
      = totalCurrentAfter quote files := by
  simp only [update_portfolio_values, foldl_revalueStep]
  exact ⟨by simp, by simp, by simp⟩

/-- C7: update_portfolio_values never removes or reorders entries: every
readable file keeps its length and every position keeps its symbol; an
entry whose fresh quote fails (or is falsy) keeps all its prior field
values exactly; and every file of the input, readable or not, is still
present at its position in the output. -/
theorem C7_revalue_in_place (quote : String → Option ℚ)
    (files : List (Option (List LedgerEntry))) :
    (update_portfolio_values quote files).1.length = files.length
  ∧ ∀ i entries, files.get? i = some (some entries) →
      ∃ entries', (update_portfolio_values quote files).1.get? i
            = some (some entries')
        ∧ entries'.length = entries.length
        ∧ ∀ j e, entries.get? j = some e →
            ∃ e', entries'.get? j = some e'
              ∧ e'.symbol = e.symbol
              ∧ ((quote e.symbol = none ∨ quote e.symbol = some 0) →
                  e' = e) := by
  obtain ⟨h1, -, -⟩ := update_files_eq quote files
  constructor
  · rw [h1, List.length_map]
  · intro i entries hi
    refine ⟨entries.map (revalueEntry quote), ?_, List.length_map _ _, ?_⟩
    · rw [h1, List.get?_map, hi]
      rfl
    · intro j e hj
      refine ⟨revalueEntry quote e, ?_,
        (revalueEntry_preserves quote e).2.1, fun hfail => ?_⟩
      · rw [List.get?_map, hj]
        rfl
      · exact revalueEntry_of_fail quote e hfail

/-- C7 witness: a one-file, one-entry portfolio whose quote collaborator
always fails still has its file present after revaluation. -/
theorem C7_witness :
    ((update_portfolio_values (fun _ => none)
        [some [mkEntry "2026-01-02" abcRow 100]]).1.get? 0).isSome = true := by
  obtain ⟨-, h⟩ := C7_revalue_in_place (fun _ => none)
    [some [mkEntry "2026-01-02" abcRow 100]]
  obtain ⟨es, h1, -, hent⟩ := h 0 [mkEntry "2026-01-02" abcRow 100] rfl
  obtain ⟨e', -, -, -⟩ := hent 0 (mkEntry "2026-01-02" abcRow 100) rfl
  rw [h1]
  rfl

/-- C8: on every call the aggregate return is recomputed fresh from the
grand totals over the successfully read files (an unreadable file is
excluded from both sums): it equals
(total current - total initial) / total initial * 100 whenever the total
initial value is positive, and it is reported as 0 whenever the total
initial value is 0. -/
theorem C8_aggregate (quote : String → Option ℚ)
    (files : List (Option (List LedgerEntry))) :
    (0 < totalInitial files →
      (update_portfolio_values quote files).2.2.2
        = (totalCurrentAfter quote files - totalInitial files)
            / totalInitial files * 100)
  ∧ (totalInitial files = 0 →
      (update_portfolio_values quote files).2.2.2 = 0) := by
  have h : (update_portfolio_values quote files).2.2.2
      = if 0 < totalInitial files then
          (totalCurrentAfter quote files - totalInitial files)
            / totalInitial files * 100
        else 0 := by
    simp only [update_portfolio_values, foldl_revalueStep]
    simp
  constructor
  · intro hpos
    rw [h, if_pos hpos]
  · intro h0
    rw [h, if_neg (by rw [h0]; exact lt_irrefl 0)]

lemma roundq_two_1000 : roundq 2 (1000 : ℚ) = 1000 := by
  unfold roundq
  rw [show ((1000:ℚ) * 10^2) = ((100000 : ℤ) : ℚ) by norm_num, rhe_intCast]
  norm_num

lemma mkEntry_initialValue_1000 {t : String} {r : ScanRow} {p : ℚ}
    (hp : p ≠ 0) : (mkEntry t r p).initialValue = 1000 := by
  show roundq 2 (CAPITAL_PER_TRADE / p * p) = 1000
  rw [div_mul_cancel₀ _ hp]
  exact roundq_two_1000

/-- C8 witness: the end-to-end scenario, one file holding the price-100
entry, revalued at a fresh quote of 110: total initial is 1000, which is
positive, so the reported aggregate return is the percentage formula. -/
theorem C8_witness :
    (update_portfolio_values (fun _ => some 110)
        [some [mkEntry "2026-01-02" abcRow 100]]).2.2.2
      = (totalCurrentAfter (fun _ => some 110)
            [some [mkEntry "2026-01-02" abcRow 100]]
          - totalInitial [some [mkEntry "2026-01-02" abcRow 100]])
          / totalInitial [some [mkEntry "2026-01-02" abcRow 100]] * 100 := by
  apply (C8_aggregate (fun _ => some 110)
    [some [mkEntry "2026-01-02" abcRow 100]]).1
  have h : totalInitial [some [mkEntry "2026-01-02" abcRow 100]] = 1000 := by
    simp [totalInitial, sumInitial,
      mkEntry_initialValue_1000 (by norm_num : (100:ℚ) ≠ 0)]
  rw [h]
  norm_num
